import Mathlib

/-!
Verification of `cleanup-files/update_politicians_images.py`.

The script loads a JSON array of politician records, builds a map from
normalized image-file stems to actual filenames (from the files in the
images directory ending case-insensitively in `.png`), and for each record
tries, in order: exact normalized-name lookup, normalized-alias lookup
(first matching alias wins), and finally a fallback that picks the first
map key of which every normalized part of the split name is a substring.
On success it sets the record's `image` field and increments a counter;
otherwise it prints a diagnostic.  We embed the string transformations,
the map construction and the main loop, and prove the spec's claims.
-/

namespace UPI

/-- The separator class of the regex used throughout the script:
space, hyphen, apostrophe (`[-' ]`). -/
def isSep (c : Char) : Bool := c = '-' || c = '\x27' || c = ' '

/-- `re.sub(r"[-' ]", '_', s)` on a character list: replace every
separator character by an underscore. -/
def subSepL (l : List Char) : List Char :=
  l.map (fun c => if isSep c then '_' else c)

/-- `re.sub(r"[-' ]", '_', s)` on strings. -/
def subSep (s : String) : String := ⟨subSepL s.data⟩

/-- `s.replace('"', '')`: drop every double-quote character. -/
def stripQuotes (s : String) : String := ⟨s.data.filter (fun c => c ≠ '"')⟩

/-- The script's `normalize`: remove double quotes, then replace every
separator character with an underscore (lines 17-21). -/
def normalize (s : String) : String := subSep (stripQuotes s)

/-- ASCII lowercasing of one character, as `str.lower` acts on the
characters relevant to the `.png` suffix test. -/
def lowerChar (c : Char) : Char :=
  if 'A' ≤ c && c ≤ 'Z' then Char.ofNat (c.toNat + 32) else c

/-- `f.lower().endswith('.png')` (line 13). -/
def isPngFile (f : String) : Bool :=
  ('.' :: 'p' :: 'n' :: 'g' :: []).isSuffixOf (f.data.map lowerChar)

/-- The filtered directory listing (line 13). -/
def imageFiles (listing : List String) : List String := listing.filter isPngFile

/-- `os.path.splitext(f)[0]`: cut at the last dot, unless every character
before that dot is itself a dot (then there is no extension). -/
def splitextStem (s : String) : String :=
  match s.data.reverse.findIdx? (fun c => c = '.') with
  | none => s
  | some r =>
      let i := s.data.length - 1 - r
      if (s.data.take i).any (fun c => c ≠ '.') then ⟨s.data.take i⟩ else s

/-- The key under which a filename is stored in `norm_map`
(line 14): `re.sub(r"[-' ]", '_', os.path.splitext(f)[0])`.
Note: unlike `normalize`, no double-quote stripping happens here. -/
def fileKey (f : String) : String := subSep (splitextStem f)

/-- Python-dict insertion: an existing key keeps its position but its
value is overwritten; a new key is appended. -/
def insertEntry (m : List (String × String)) (k v : String) :
    List (String × String) :=
  if m.any (fun p => p.1 == k) then
    m.map (fun p => if p.1 == k then (k, v) else p)
  else m ++ [(k, v)]

/-- `norm_map` (line 14), as an association list in dict iteration
order, built from the filtered listing. -/
def buildNormMap (files : List String) : List (String × String) :=
  files.foldl (fun m f => insertEntry m (fileKey f) f) []

/-- The image index the script works with, from a raw directory listing. -/
def normMap (listing : List String) : List (String × String) :=
  buildNormMap (imageFiles listing)

/-- `k in m` / `m[k]` on the association list. -/
def lookup (m : List (String × String)) (k : String) : Option String :=
  (m.find? (fun p => p.1 == k)).map Prod.snd

/-- A politician record: `name` and `aliases` may be absent (the script
uses `entry.get` with defaults), `image` is the field being assigned, and
`rest` stands for all other key/value pairs of the JSON object, which the
script never touches. -/
structure Record where
  name : Option String
  aliases : Option (List String)
  image : Option String
  rest : List (String × String)
deriving Repr, DecidableEq

def defaultRecord : Record := ⟨none, none, none, []⟩

/-- `entry.get('name', '')` (line 26). -/
def getName (r : Record) : String := r.name.getD ""

/-- `entry.get('aliases', [])` (line 34). -/
def getAliases (r : Record) : List String := r.aliases.getD []

/-- `re.split(r"[-' ]", s)` on a character list: the (possibly empty)
chunks between separator characters. -/
def splitSepL (l : List Char) : List (List Char) :=
  match l with
  | [] => [[]]
  | c :: rest =>
      if isSep c then [] :: splitSepL rest
      else
        match splitSepL rest with
        | [] => [[c]]
        | h :: t => (c :: h) :: t

/-- `[p for p in re.split(r"[-' ]", name) if p]` (line 41). -/
def nameParts (name : String) : List String :=
  ((splitSepL name.data).filter (fun p => p ≠ [])).map (fun p => String.mk p)

/-- Python's substring test `needle in hay` on character lists: `needle`
occurs contiguously in `hay` (the empty needle always occurs). -/
def isSubstrOf (needle : List Char) : List Char → Bool
  | [] => needle.isPrefixOf []
  | c :: t => needle.isPrefixOf (c :: t) || isSubstrOf needle t

/-- `all(normalize(p) in key for p in parts)` (line 43):
every normalized part is a substring of the key. -/
def partsMatch (name : String) (key : String) : Bool :=
  (nameParts name).all (fun p => isSubstrOf (normalize p).data key.data)

/-- The value of `img` after lines 26-45: name lookup, then first
matching alias, then the first key all of whose part-substring checks
succeed. -/
def matchImage (m : List (String × String)) (r : Record) : Option String :=
  match lookup m (normalize (getName r)) with
  | some f => some f
  | none =>
      match (getAliases r).findSome? (fun a => lookup m (normalize a)) with
      | some f => some f
      | none =>
          (m.find? (fun kv => partsMatch (getName r) kv.1)).map Prod.snd

/-- `if img:` — Python truthiness of `img` at line 46. -/
def isMatched (m : List (String × String)) (r : Record) : Bool :=
  match matchImage m r with
  | some f => f ≠ ""
  | none => false

/-- The body of the loop for one entry (lines 25-50): the updated
record, the count increment, and the diagnostics printed. -/
def processEntry (m : List (String × String)) (r : Record) :
    Record × Nat × List String :=
  match matchImage m r with
  | some f =>
      if f = "" then (r, 0, ["No image found for " ++ getName r])
      else ({ r with image := some f }, 1, [])
  | none => (r, 0, ["No image found for " ++ getName r])

/-- The whole loop (lines 24-50): updated record list, final `count`,
and the diagnostics in print order. -/
def runMatcher (m : List (String × String)) (rs : List Record) :
    List Record × Nat × List String :=
  match rs with
  | [] => ([], 0, [])
  | r :: rest =>
      let p := processEntry m r
      let q := runMatcher m rest
      (p.1 :: q.1, p.2.1 + q.2.1, p.2.2 ++ q.2.2)

/-- The full run from a raw directory listing and the loaded records. -/
def run (listing : List String) (rs : List Record) :
    List Record × Nat × List String :=
  runMatcher (normMap listing) rs

/-! ### Structural lemmas about the loop -/

theorem matchImage_setImage (m : List (String × String)) (r : Record)
    (x : Option String) : matchImage m { r with image := x } = matchImage m r := rfl

theorem processEntry_count (m : List (String × String)) (r : Record) :
    (processEntry m r).2.1 = if isMatched m r then 1 else 0 := by
  unfold processEntry isMatched
  cases h : matchImage m r with
  | none => simp
  | some f =>
      by_cases hf : f = "" <;> simp [hf]

theorem processEntry_fst_of_not_matched (m : List (String × String)) (r : Record)
    (h : isMatched m r = false) : (processEntry m r).1 = r := by
  unfold processEntry
  unfold isMatched at h
  cases hm : matchImage m r with
  | none => rfl
  | some f =>
      rw [hm] at h
      simp only [ne_eq, decide_not, Bool.not_eq_false', decide_eq_true_eq] at h
      simp [h]

theorem processEntry_fst_of_matched (m : List (String × String)) (r : Record)
    (h : isMatched m r = true) :
    (processEntry m r).1 = { r with image := matchImage m r } := by
  unfold processEntry
  unfold isMatched at h
  cases hm : matchImage m r with
  | none => rw [hm] at h; exact absurd h (by simp)
  | some f =>
      rw [hm] at h
      simp only [ne_eq, decide_not, Bool.not_eq_true', decide_eq_false_iff_not] at h
      simp [h]

theorem processEntry_diags (m : List (String × String)) (r : Record) :
    (processEntry m r).2.2 =
      if isMatched m r then [] else ["No image found for " ++ getName r] := by
  unfold processEntry isMatched
  cases h : matchImage m r with
  | none => simp
  | some f => by_cases hf : f = "" <;> simp [hf]

theorem runMatcher_fst (m : List (String × String)) (rs : List Record) :
    (runMatcher m rs).1 = rs.map (fun r => (processEntry m r).1) := by
  induction rs with
  | nil => rfl
  | cons r rest ih => simp [runMatcher, ih]

theorem runMatcher_count (m : List (String × String)) (rs : List Record) :
    (runMatcher m rs).2.1 = rs.countP (fun r => isMatched m r) := by
  induction rs with
  | nil => rfl
  | cons r rest ih =>
      simp only [runMatcher, ih, processEntry_count, List.countP_cons]
      by_cases h : isMatched m r <;> simp [h, Nat.add_comm]

theorem runMatcher_diags (m : List (String × String)) (rs : List Record) :
    (runMatcher m rs).2.2 = (rs.map (fun r => (processEntry m r).2.2)).flatten := by
  induction rs with
  | nil => rfl
  | cons r rest ih => simp [runMatcher, ih]

theorem runMatcher_getElem? (m : List (String × String)) (rs : List Record)
    (i : Nat) : ((runMatcher m rs).1)[i]? = rs[i]?.map (fun r => (processEntry m r).1) := by
  rw [runMatcher_fst]
  exact List.getElem?_map _ rs i

theorem runMatcher_length (m : List (String × String)) (rs : List Record) :
    (runMatcher m rs).1.length = rs.length := by
  rw [runMatcher_fst]; exact List.length_map rs _

/-! ### First-hit characterizations of `find?` and `findSome?` -/

theorem find?_eq_of_first {α : Type} (p : α → Bool) :
    ∀ (l : List α) (i : Nat) (hi : i < l.length),
      p (l.get ⟨i, hi⟩) = true →
      (∀ j (hj : j < i), p (l.get ⟨j, Nat.lt_trans hj hi⟩) = false) →
      l.find? p = some (l.get ⟨i, hi⟩)
  | a :: t, 0, _, hp, _ => by
      simp only [List.get] at hp
      simp [List.find?_cons, hp]
  | a :: t, i + 1, hi, hp, hprev => by
      have ha : p a = false := hprev 0 (Nat.succ_pos i)
      simp only [List.find?_cons, ha]
      exact find?_eq_of_first p t i (Nat.lt_of_succ_lt_succ hi) hp
        (fun j hj => hprev (j + 1) (Nat.succ_lt_succ hj))

theorem findSome?_eq_of_first {α β : Type} (f : α → Option β) :
    ∀ (l : List α) (i : Nat) (hi : i < l.length) (b : β),
      f (l.get ⟨i, hi⟩) = some b →
      (∀ j (hj : j < i), f (l.get ⟨j, Nat.lt_trans hj hi⟩) = none) →
      l.findSome? f = some b
  | a :: t, 0, _, b, hb, _ => by
      simp only [List.get] at hb
      simp [List.findSome?_cons, hb]
  | a :: t, i + 1, hi, b, hb, hprev => by
      have ha : f a = none := hprev 0 (Nat.succ_pos i)
      simp [List.findSome?_cons, ha]
      exact findSome?_eq_of_first f t i (Nat.lt_of_succ_lt_succ hi) b hb
        (fun j hj => hprev (j + 1) (Nat.succ_lt_succ hj))

/-! ### The index only stores listed `.png` filenames -/

theorem mem_foldl_insertEntry :
    ∀ (files : List String) (acc : List (String × String)) (p : String × String),
      p ∈ files.foldl (fun m f => insertEntry m (fileKey f) f) acc →
      p ∈ acc ∨ p.2 ∈ files := by
  intro files
  induction files with
  | nil => intro acc p h; exact Or.inl h
  | cons f t ih =>
      intro acc p h
      rcases ih (insertEntry acc (fileKey f) f) p h with h' | h'
      · unfold insertEntry at h'
        by_cases hc : acc.any (fun q => q.1 == fileKey f)
        · rw [if_pos hc] at h'
          rcases List.mem_map.mp h' with ⟨q, hq, hqe⟩
          by_cases hk : q.1 == fileKey f
          · rw [if_pos hk] at hqe
            right; rw [← hqe]; exact List.mem_cons_self f t
          · rw [if_neg hk] at hqe
            left; rw [← hqe]; exact hq
        · rw [if_neg hc] at h'
          rcases List.mem_append.mp h' with h'' | h''
          · exact Or.inl h''
          · right
            have : p = (fileKey f, f) := List.mem_singleton.mp h''
            rw [this]; exact List.mem_cons_self f t
      · exact Or.inr (List.mem_cons_of_mem f h')

theorem snd_mem_of_mem_normMap (listing : List String) (p : String × String)
    (h : p ∈ normMap listing) : p.2 ∈ imageFiles listing := by
  rcases mem_foldl_insertEntry (imageFiles listing) [] p h with h' | h'
  · exact absurd h' (List.not_mem_nil p)
  · exact h'

theorem ne_empty_of_mem_imageFiles (listing : List String) (f : String)
    (h : f ∈ imageFiles listing) : f ≠ "" := by
  rw [imageFiles, List.mem_filter] at h
  rintro rfl
  exact absurd h.2 (by decide)

theorem lookup_eq_some_mem (m : List (String × String)) (k f : String)
    (h : lookup m k = some f) : ∃ p, p ∈ m ∧ p.2 = f := by
  unfold lookup at h
  cases hf : m.find? (fun p => p.1 == k) with
  | none => rw [hf] at h; exact absurd h (by simp)
  | some q =>
      rw [hf] at h
      simp only [Option.map_some', Option.some.injEq] at h
      exact ⟨q, List.mem_of_find?_eq_some hf, h⟩

theorem matchImage_normMap_ne_empty (listing : List String) (r : Record)
    (f : String) (h : matchImage (normMap listing) r = some f) : f ≠ "" := by
  unfold matchImage at h
  cases h1 : lookup (normMap listing) (normalize (getName r)) with
  | some g =>
      rw [h1] at h
      simp only [Option.some.injEq] at h
      rcases lookup_eq_some_mem _ _ _ h1 with ⟨p, hp, hpf⟩
      rw [← h, ← hpf]
      exact ne_empty_of_mem_imageFiles listing p.2 (snd_mem_of_mem_normMap listing p hp)
  | none =>
      rw [h1] at h
      cases h2 : (getAliases r).findSome? (fun a => lookup (normMap listing) (normalize a)) with
      | some g =>
          rw [h2] at h
          simp only [Option.some.injEq] at h
          rcases List.exists_of_findSome?_eq_some h2 with ⟨a, _, ha⟩
          rcases lookup_eq_some_mem _ _ _ ha with ⟨p, hp, hpf⟩
          rw [← h, ← hpf]
          exact ne_empty_of_mem_imageFiles listing p.2 (snd_mem_of_mem_normMap listing p hp)
      | none =>
          rw [h2] at h
          cases h3 : (normMap listing).find? (fun kv => partsMatch (getName r) kv.1) with
          | none => rw [h3] at h; exact absurd h (by simp)
          | some q =>
              rw [h3] at h
              simp only [Option.map_some', Option.some.injEq] at h
              rw [← h]
              exact ne_empty_of_mem_imageFiles listing q.2
                (snd_mem_of_mem_normMap listing q (List.mem_of_find?_eq_some h3))

theorem isMatched_normMap (listing : List String) (r : Record) (f : String)
    (h : matchImage (normMap listing) r = some f) :
    isMatched (normMap listing) r = true := by
  unfold isMatched
  rw [h]
  simp [matchImage_normMap_ne_empty listing r f h]

/-! ### The claims -/

/-- C1: matching is attempted in a fixed order, stopping at the first
success: a hit on the normalized name wins (and the aliases and the old
image are never consulted); otherwise the first alias in given order whose
normalization is a key wins; otherwise the first index key, in iteration
order, of which every normalized non-empty part of the split name is a
substring supplies the filename. -/
theorem c1_staged_matching (m : List (String × String)) (r : Record) :
    (∀ f, lookup m (normalize (getName r)) = some f →
        ∀ al x, matchImage m { r with aliases := al, image := x } = some f)
    ∧ (lookup m (normalize (getName r)) = none →
        ∀ i (hi : i < (getAliases r).length) f,
          lookup m (normalize ((getAliases r).get ⟨i, hi⟩)) = some f →
          (∀ j (hj : j < i),
            lookup m (normalize ((getAliases r).get ⟨j, Nat.lt_trans hj hi⟩)) = none) →
          matchImage m r = some f)
    ∧ (lookup m (normalize (getName r)) = none →
        (∀ a ∈ getAliases r, lookup m (normalize a) = none) →
        ∀ i (hi : i < m.length),
          partsMatch (getName r) (m.get ⟨i, hi⟩).1 = true →
          (∀ j (hj : j < i),
            partsMatch (getName r) (m.get ⟨j, Nat.lt_trans hj hi⟩).1 = false) →
          matchImage m r = some (m.get ⟨i, hi⟩).2) := by
  refine ⟨fun f hf al x => ?_, fun h1 i hi f hf hprev => ?_, fun h1 h2 i hi hp hprev => ?_⟩
  · have hn : getName { r with aliases := al, image := x } = getName r := rfl
    unfold matchImage
    rw [hn, hf]
  · have hs : (getAliases r).findSome? (fun a => lookup m (normalize a)) = some f :=
      findSome?_eq_of_first _ _ i hi f hf hprev
    unfold matchImage
    rw [h1, hs]
  · have hs : (getAliases r).findSome? (fun a => lookup m (normalize a)) = none :=
      List.findSome?_eq_none_iff.mpr h2
    have hfind : m.find? (fun kv => partsMatch (getName r) kv.1) = some (m.get ⟨i, hi⟩) :=
      find?_eq_of_first _ m i hi hp hprev
    unfold matchImage
    rw [h1, hs, hfind]
    rfl

/-- C1 witness: all three stages exercised at concrete inputs. -/
theorem c1_staged_matching_witness :
    matchImage [("A", "A.png")] ⟨some "A", some ["Z"], some "old", []⟩ = some "A.png"
    ∧ matchImage [("B", "B.png")] ⟨some "Z", some ["Q", "B"], none, []⟩ = some "B.png"
    ∧ matchImage [("QQ", "Q1.png"), ("ZB", "Q2.png")] ⟨some "Z B", some [], none, []⟩ =
        some "Q2.png" := by
  refine ⟨?_, ?_, ?_⟩
  · exact (c1_staged_matching [("A", "A.png")] ⟨some "A", none, none, []⟩).1
      "A.png" (by decide) (some ["Z"]) (some "old")
  · exact (c1_staged_matching [("B", "B.png")] ⟨some "Z", some ["Q", "B"], none, []⟩).2.1
      (by decide) 1 (by decide) "B.png" (by decide)
      (fun j hj => by
        have hj0 : j = 0 := by omega
        subst hj0
        show lookup [("B", "B.png")] (normalize "Q") = none
        decide)
  · exact (c1_staged_matching [("QQ", "Q1.png"), ("ZB", "Q2.png")]
      ⟨some "Z B", some [], none, []⟩).2.2
      (by decide) (by decide) 1 (by decide) (by decide)
      (fun j hj => by
        have hj0 : j = 0 := by omega
        subst hj0
        show partsMatch "Z B" "QQ" = false
        decide)

/-- C2 counterexample: the index key of a filename whose stem contains a
double quote is computed without quote stripping, so it differs from
`normalize` of that stem. -/
theorem c2_counterexample :
    fileKey "a\"b.png" ≠ normalize (splitextStem "a\"b.png") := by decide

/-- C2 amended: for every filename whose stem contains no double-quote
character, the index key equals `normalize` of the stem (the two
transformations differ exactly in the quote-stripping step, which the
index-building line omits). -/
theorem c2_amended_key_eq_normalize (f : String)
    (h : ∀ c ∈ (splitextStem f).data, c ≠ '"') :
    fileKey f = normalize (splitextStem f) := by
  unfold fileKey normalize stripQuotes
  have he : (splitextStem f).data.filter (fun c => c ≠ '"') = (splitextStem f).data :=
    List.filter_eq_self.mpr (fun a ha => by simpa using h a ha)
  rw [he]

/-- C2 witness: on a quote-free filename the key and `normalize` agree. -/
theorem c2_amended_witness :
    fileKey "A B.png" = normalize (splitextStem "A B.png") :=
  c2_amended_key_eq_normalize "A B.png" (by decide)

/-- C3 counterexample: two listed files collide on the same index key;
the later one overwrites the earlier, so a record whose normalized name
equals the normalized stem of the earlier file ends up with the later
file's name instead. -/
theorem c3_counterexample :
    "A B.png" ∈ imageFiles ["A B.png", "A_B.png"]
    ∧ normalize "A B" = normalize (splitextStem "A B.png")
    ∧ ((run ["A B.png", "A_B.png"] [⟨some "A B", none, none, []⟩]).1)[0]? =
        some ⟨some "A B", none, some "A_B.png", []⟩
    ∧ ("A_B.png" : String) ≠ "A B.png" := by decide

/-- C3 amended: if the image index maps `normalize(record.name)` to `f`
(which is the case whenever `f` is the only listed `.png` file with that
key and its stem has no double quote), then after the run that record's
`image` equals `f`. -/
theorem c3_amended_name_match (listing : List String) (rs : List Record)
    (i : Nat) (hi : i < rs.length) (f : String)
    (hf : lookup (normMap listing) (normalize (getName rs[i])) = some f) :
    ((run listing rs).1)[i]? = some { rs[i] with image := some f } := by
  have hm : matchImage (normMap listing) rs[i] = some f := by
    unfold matchImage
    rw [hf]
  have hmatched : isMatched (normMap listing) rs[i] = true :=
    isMatched_normMap listing rs[i] f hm
  rw [run, runMatcher_getElem?, List.getElem?_eq_getElem hi, Option.map_some',
    processEntry_fst_of_matched _ _ hmatched, hm]

/-- C3 witness: a unique quote-free filename is matched by name. -/
theorem c3_amended_witness :
    ((run ["A.png"] [⟨some "A", none, none, []⟩]).1)[0]? =
      some ⟨some "A", none, some "A.png", []⟩ := by
  have h := c3_amended_name_match ["A.png"] [⟨some "A", none, none, []⟩] 0
    (by decide) "A.png" (by decide)
  exact h

/-- C4 counterexample: a record with two aliases that both hit the index;
for the second alias the claim's premises hold, yet the record receives
the first alias's filename. -/
theorem c4_counterexample :
    lookup (normMap ["X.png", "Y.png"])
        (normalize (getName ⟨some "Z", some ["X", "Y"], none, []⟩)) = none
    ∧ "Y" ∈ getAliases ⟨some "Z", some ["X", "Y"], none, []⟩
    ∧ lookup (normMap ["X.png", "Y.png"]) (normalize "Y") = some "Y.png"
    ∧ ((run ["X.png", "Y.png"] [⟨some "Z", some ["X", "Y"], none, []⟩]).1)[0]? =
        some ⟨some "Z", some ["X", "Y"], some "X.png", []⟩
    ∧ ("X.png" : String) ≠ "Y.png" := by decide

/-- C4 amended: when name matching fails, the FIRST alias in given order
whose normalization is an index key determines the image: the record's
`image` becomes the filename that key maps to. -/
theorem c4_amended_first_alias (listing : List String) (rs : List Record)
    (i : Nat) (hi : i < rs.length) (j : Nat)
    (hj : j < (getAliases rs[i]).length) (f : String)
    (hname : lookup (normMap listing) (normalize (getName rs[i])) = none)
    (hfirst : ∀ k (hk : k < j),
      lookup (normMap listing)
        (normalize ((getAliases rs[i]).get ⟨k, Nat.lt_trans hk hj⟩)) = none)
    (hhit : lookup (normMap listing)
        (normalize ((getAliases rs[i]).get ⟨j, hj⟩)) = some f) :
    ((run listing rs).1)[i]? = some { rs[i] with image := some f } := by
  have hs : (getAliases rs[i]).findSome?
      (fun a => lookup (normMap listing) (normalize a)) = some f :=
    findSome?_eq_of_first _ _ j hj f hhit hfirst
  have hm : matchImage (normMap listing) rs[i] = some f := by
    unfold matchImage
    rw [hname, hs]
  have hmatched : isMatched (normMap listing) rs[i] = true :=
    isMatched_normMap listing rs[i] f hm
  rw [run, runMatcher_getElem?, List.getElem?_eq_getElem hi, Option.map_some',
    processEntry_fst_of_matched _ _ hmatched, hm]

/-- C4 witness: second alias is the first (and only) hit. -/
theorem c4_amended_witness :
    ((run ["B.png"] [⟨some "Z", some ["A", "B"], none, []⟩]).1)[0]? =
      some ⟨some "Z", some ["A", "B"], some "B.png", []⟩ := by
  have h := c4_amended_first_alias ["B.png"] [⟨some "Z", some ["A", "B"], none, []⟩]
    0 (by decide) 1 (by decide) "B.png" (by decide)
    (fun k hk => by
      have hk0 : k = 0 := by omega
      subst hk0
      show lookup (normMap ["B.png"]) (normalize "A") = none
      decide)
    (by decide)
  exact h

/-- C5: the final count equals the number of records matched in this
run, and a record's `image` is assigned (to the matched filename)
exactly when the record is matched — otherwise it is untouched. -/
theorem c5_count_matches (m : List (String × String)) (rs : List Record) :
    (runMatcher m rs).2.1 = rs.countP (fun r => isMatched m r)
    ∧ ∀ i (hi : i < rs.length),
        (isMatched m rs[i] = true →
          ((runMatcher m rs).1)[i]? = some { rs[i] with image := matchImage m rs[i] })
        ∧ (isMatched m rs[i] = false → ((runMatcher m rs).1)[i]? = some rs[i]) := by
  refine ⟨runMatcher_count m rs, fun i hi => ⟨fun h => ?_, fun h => ?_⟩⟩
  · rw [runMatcher_getElem?, List.getElem?_eq_getElem hi, Option.map_some',
      processEntry_fst_of_matched _ _ h]
  · rw [runMatcher_getElem?, List.getElem?_eq_getElem hi, Option.map_some',
      processEntry_fst_of_not_matched _ _ h]

/-- C5 witness: one matched and one unmatched record. -/
theorem c5_count_matches_witness :
    ((runMatcher [("A", "A.png")]
        [⟨some "A", none, none, []⟩, ⟨some "B", none, none, []⟩]).1)[0]? =
      some ⟨some "A", none, some "A.png", []⟩
    ∧ ((runMatcher [("A", "A.png")]
        [⟨some "A", none, none, []⟩, ⟨some "B", none, none, []⟩]).1)[1]? =
      some ⟨some "B", none, none, []⟩ := by
  have h := c5_count_matches [("A", "A.png")]
    [⟨some "A", none, none, []⟩, ⟨some "B", none, none, []⟩]
  exact ⟨(h.2 0 (by decide)).1 (by decide), (h.2 1 (by decide)).2 (by decide)⟩

/-- C6: an unmatched record is non-fatal: the record is left exactly as
it was (its `image`, present or absent, is untouched), a diagnostic line
naming it is among the printed diagnostics, and the output still has one
record per input record. -/
theorem c6_no_match_diagnostic (m : List (String × String)) (rs : List Record)
    (i : Nat) (hi : i < rs.length) (h : isMatched m rs[i] = false) :
    ((runMatcher m rs).1)[i]? = some rs[i]
    ∧ ("No image found for " ++ getName rs[i]) ∈ (runMatcher m rs).2.2
    ∧ (runMatcher m rs).1.length = rs.length := by
  refine ⟨?_, ?_, runMatcher_length m rs⟩
  · rw [runMatcher_getElem?, List.getElem?_eq_getElem hi, Option.map_some',
      processEntry_fst_of_not_matched _ _ h]
  · rw [runMatcher_diags]
    have hd : (processEntry m rs[i]).2.2 = ["No image found for " ++ getName rs[i]] := by
      rw [processEntry_diags]
      simp [h]
    refine List.mem_flatten_of_mem (l := (processEntry m rs[i]).2.2) ?_ ?_
    · exact List.mem_map_of_mem _ (List.getElem_mem hi)
    · rw [hd]
      exact List.mem_singleton.mpr rfl

/-- C6 witness: an unmatched record with a pre-existing `image` keeps it
and shows up in the diagnostics. -/
theorem c6_no_match_diagnostic_witness :
    ((runMatcher [("A", "A.png")] [⟨some "B", none, some "keep.png", []⟩]).1)[0]? =
      some ⟨some "B", none, some "keep.png", []⟩
    ∧ ("No image found for " ++ getName ⟨some "B", none, some "keep.png", []⟩) ∈
        (runMatcher [("A", "A.png")] [⟨some "B", none, some "keep.png", []⟩]).2.2
    ∧ (runMatcher [("A", "A.png")] [⟨some "B", none, some "keep.png", []⟩]).1.length = 1 := by
  have h := c6_no_match_diagnostic [("A", "A.png")]
    [⟨some "B", none, some "keep.png", []⟩] 0 (by decide) (by decide)
  exact h

/-- A record that the loop body has just processed is processed to the
same record again: the body only rewrites `image`, which the matching
never reads. -/
theorem processEntry_idem (m : List (String × String)) (r : Record) :
    (processEntry m (processEntry m r).1).1 = (processEntry m r).1 := by
  cases h : isMatched m r with
  | true =>
      have h1 := processEntry_fst_of_matched m r h
      have h3 : isMatched m (processEntry m r).1 = true := by
        rw [h1]
        show isMatched m { r with image := matchImage m r } = true
        unfold isMatched
        rw [matchImage_setImage]
        exact h
      rw [processEntry_fst_of_matched _ _ h3, h1]
      rfl
  | false =>
      have h1 := processEntry_fst_of_not_matched m r h
      rw [h1, h1]

/-- C7: the run is idempotent: running the matcher again on the output
of a first run, against the same directory listing, reproduces the first
run's record list exactly. -/
theorem c7_idempotent (listing : List String) (rs : List Record) :
    (run listing (run listing rs).1).1 = (run listing rs).1 := by
  unfold run
  rw [runMatcher_fst, runMatcher_fst, List.map_map]
  exact List.map_congr_left (fun r _ => processEntry_idem (normMap listing) r)

/-- C8: the spec's worked example, in both listing orders: record 1 is
matched by name, record 2 via its alias (its own name misses the index),
record 3 is unmatched and produces the diagnostic line, and the count
is 2. -/
theorem c8_example :
    run ["John_Smith.png", "Jane-Doe.png"]
        [⟨some "John Smith", none, none, []⟩,
         ⟨some "Jane O\x27Doe", some ["Jane Doe"], none, []⟩,
         ⟨some "Unknown Person", none, none, []⟩] =
      ([⟨some "John Smith", none, some "John_Smith.png", []⟩,
        ⟨some "Jane O\x27Doe", some ["Jane Doe"], some "Jane-Doe.png", []⟩,
        ⟨some "Unknown Person", none, none, []⟩], 2,
       ["No image found for Unknown Person"])
    ∧ run ["Jane-Doe.png", "John_Smith.png"]
        [⟨some "John Smith", none, none, []⟩,
         ⟨some "Jane O\x27Doe", some ["Jane Doe"], none, []⟩,
         ⟨some "Unknown Person", none, none, []⟩] =
      ([⟨some "John Smith", none, some "John_Smith.png", []⟩,
        ⟨some "Jane O\x27Doe", some ["Jane Doe"], some "Jane-Doe.png", []⟩,
        ⟨some "Unknown Person", none, none, []⟩], 2,
       ["No image found for Unknown Person"])
    ∧ lookup (normMap ["John_Smith.png", "Jane-Doe.png"]) (normalize "Jane O\x27Doe") = none
    ∧ lookup (normMap ["John_Smith.png", "Jane-Doe.png"]) (normalize "Jane Doe") =
        some "Jane-Doe.png" := by decide

/-- C9: when the record's name splits into no non-empty parts and the
name and alias stages both miss, the fallback check is vacuously true on
every key, so the record receives the first filename of the (non-empty)
index and the loop body counts it as matched. -/
theorem c9_vacuous_fallback (listing : List String) (r : Record)
    (k f : String) (t : List (String × String))
    (hm : normMap listing = (k, f) :: t)
    (hparts : nameParts (getName r) = [])
    (hname : lookup (normMap listing) (normalize (getName r)) = none)
    (halias : ∀ a ∈ getAliases r, lookup (normMap listing) (normalize a) = none) :
    matchImage (normMap listing) r = some f
    ∧ processEntry (normMap listing) r = ({ r with image := some f }, 1, []) := by
  have hpm : partsMatch (getName r) k = true := by
    unfold partsMatch
    rw [hparts]
    rfl
  have hfind : (normMap listing).find? (fun kv => partsMatch (getName r) kv.1) =
      some (k, f) := by
    rw [hm, List.find?_cons]
    simp [hpm]
  have hmi : matchImage (normMap listing) r = some f := by
    unfold matchImage
    rw [hname, List.findSome?_eq_none_iff.mpr halias, hfind]
    rfl
  have hne : f ≠ "" := matchImage_normMap_ne_empty listing r f hmi
  refine ⟨hmi, ?_⟩
  unfold processEntry
  rw [hmi]
  show (if f = "" then (r, 0, ["No image found for " ++ getName r])
      else ({ r with image := some f }, 1, ([] : List String))) =
    ({ r with image := some f }, 1, ([] : List String))
  rw [if_neg hne]

/-- C9 witness: a separator-only name against a one-file index. -/
theorem c9_vacuous_fallback_witness :
    matchImage (normMap ["A.png"]) ⟨some "- -", none, none, []⟩ = some "A.png"
    ∧ processEntry (normMap ["A.png"]) ⟨some "- -", none, none, []⟩ =
        (⟨some "- -", none, some "A.png", []⟩, 1, []) := by
  have h := c9_vacuous_fallback ["A.png"] ⟨some "- -", none, none, []⟩
    "A" "A.png" [] (by decide) (by decide) (by decide) (by decide)
  exact h

/-- Each field of a processed record other than `image` is the input
record's field. -/
theorem processEntry_fst_fields (m : List (String × String)) (r : Record) :
    (processEntry m r).1.name = r.name
    ∧ (processEntry m r).1.aliases = r.aliases
    ∧ (processEntry m r).1.rest = r.rest := by
  unfold processEntry
  cases h : matchImage m r with
  | none => exact ⟨rfl, rfl, rfl⟩
  | some f => by_cases hf : f = "" <;> simp [hf]

/-- C10: the run modifies at most the `image` field: each output record
keeps the input record's `name`, `aliases` and remaining fields, and an
unmatched record is returned entirely unchanged (so `image` changes only
on a match). -/
theorem c10_frame (m : List (String × String)) (rs : List Record) (i : Nat)
    (hi : i < rs.length) :
    ∃ r, ((runMatcher m rs).1)[i]? = some r
      ∧ r.name = rs[i].name
      ∧ r.aliases = rs[i].aliases
      ∧ r.rest = rs[i].rest
      ∧ (isMatched m rs[i] = false → r = rs[i]) := by
  refine ⟨(processEntry m rs[i]).1, ?_, (processEntry_fst_fields m rs[i]).1,
    (processEntry_fst_fields m rs[i]).2.1, (processEntry_fst_fields m rs[i]).2.2,
    fun h => processEntry_fst_of_not_matched m rs[i] h⟩
  rw [runMatcher_getElem?, List.getElem?_eq_getElem hi, Option.map_some']

/-- C10 witness: a matched record with extra fields keeps everything but
`image`. -/
theorem c10_frame_witness :
    ∃ r, ((runMatcher [("A", "A.png")]
        [⟨some "A", some ["C"], some "old.png", [("party", "x")]⟩]).1)[0]? = some r
      ∧ r.name = some "A"
      ∧ r.aliases = some ["C"]
      ∧ r.rest = [("party", "x")]
      ∧ (isMatched [("A", "A.png")]
          ⟨some "A", some ["C"], some "old.png", [("party", "x")]⟩ = false →
            r = ⟨some "A", some ["C"], some "old.png", [("party", "x")]⟩) := by
  have h := c10_frame [("A", "A.png")]
    [⟨some "A", some ["C"], some "old.png", [("party", "x")]⟩] 0 (by decide)
  exact h

end UPI
